import Mathlib

set_option maxHeartbeats 1000000
set_option linter.unusedSectionVars false

/-!
Shallow embedding of the sonica audio-engine fingerprinting core
(src/audio-engine/src/fingerprint.rs and src/audio-engine/src/optimized_fingerprint.rs).
f32 arithmetic is modelled exactly over a linear ordered field (ℚ where concrete
evaluation is needed, ℝ where square roots and transcendental functions appear);
machine integers are ℕ/ℤ with explicit wrapping (`% 2 ^ 64`) where Rust wraps.
-/

/-- Spectral peak in the frequency domain (fingerprint.rs, `SpectralPeak`);
the three f32 fields are modelled by a linear ordered field. -/
structure SpectralPeak (α : Type) where
  frequency : α
  time : α
  magnitude : α
deriving DecidableEq

/-- Fingerprint metadata (fingerprint.rs, `FingerprintMetadata`). -/
structure FingerprintMetadata (α : Type) where
  sample_rate : ℕ
  duration : α
  num_bins : ℕ
  window_size : ℕ
  overlap : α
deriving DecidableEq

/-- Audio fingerprint (fingerprint.rs, `Fingerprint`): the `u64` hash values are
ℕ values below `2 ^ 64`, parallel to their anchor time offsets. -/
structure Fingerprint (α : Type) where
  hashes : List ℕ
  time_offsets : List α
  peaks : List (SpectralPeak α)
  metadata : FingerprintMetadata α
deriving DecidableEq

variable {α : Type} [LinearOrderedField α] [FloorRing α]
  [DecidableRel ((· ≤ ·) : α → α → Prop)] [DecidableRel ((· < ·) : α → α → Prop)]

/-- Rust `f32::round`: rounding half away from zero. -/
def rustRound (x : α) : ℤ :=
  if 0 ≤ x then ⌊x + 1 / 2⌋ else -⌊-x + 1 / 2⌋

/-- Rust `as i32` applied to a rounded float: the float-to-int cast saturates at
the bounds of `i32`. -/
def i32cast (z : ℤ) : ℤ :=
  max (-(2 ^ 31)) (min (2 ^ 31 - 1) z)

/-- Rust `i32 as u64`: sign extension, i.e. the two's complement residue
`z mod 2 ^ 64` of the signed value. -/
def u64cast (z : ℤ) : ℕ :=
  (z % 2 ^ 64).toNat

/-- fingerprint.rs `create_hash` (lines 282-294): quantize the anchor frequency,
the frequency difference and the time difference, then pack them with shifts by
32 and 16 and bitwise or.  `u64` left shifts discard the bits shifted above
bit 63, hence the explicit `% 2 ^ 64`. -/
def create_hash (freq1 freq_diff time_diff : α) : ℕ :=
  let freq1_quantized := i32cast (rustRound (freq1 / 10))
  let freq_diff_quantized := i32cast (rustRound (freq_diff / 10))
  let time_diff_quantized := i32cast (rustRound (time_diff * 100))
  u64cast freq1_quantized * 2 ^ 32 % 2 ^ 64 |||
    u64cast freq_diff_quantized * 2 ^ 16 % 2 ^ 64 |||
    u64cast time_diff_quantized

/-- The inner loop of fingerprint.rs `generate_hash_pairs` (lines 258-276):
starting just after the anchor `peak1`, walk the following peaks and stop
(`break`) at the first one whose time distance from the anchor exceeds 10 s. -/
def takeTargets (peak1 : SpectralPeak α) : List (SpectralPeak α) → List (SpectralPeak α)
  | [] => []
  | peak2 :: rest =>
    if |peak2.time - peak1.time| ≤ 10 then peak2 :: takeTargets peak1 rest else []

/-- fingerprint.rs `generate_hash_pairs` (lines 253-279): for each anchor peak
(outer loop index `i`) pair it with the following peaks (inner loop `j > i`)
until the first one more than 10 s away in time (`break`), recording the hash
and the anchor's time.  The outer loop is the recursion over the list. -/
def generate_hash_pairs (peaks : List (SpectralPeak α)) : List ℕ × List α :=
  match peaks with
  | [] => ([], [])
  | peak1 :: rest =>
    let targets := takeTargets peak1 rest
    let hs := targets.map (fun peak2 =>
      create_hash peak1.frequency (peak2.frequency - peak1.frequency) |peak2.time - peak1.time|)
    let ts := targets.map (fun _ => peak1.time)
    let r := generate_hash_pairs rest
    (hs ++ r.1, ts ++ r.2)

/-- Number of targets paired with the anchor at position `i` of the peak list:
the following peaks up to the first more than 10 s away in time. -/
def hashPairFanOut (peaks : List (SpectralPeak α)) (i : ℕ) : ℕ :=
  match peaks.drop i with
  | [] => 0
  | peak1 :: rest => (takeTargets peak1 rest).length

/-- fingerprint.rs `Fingerprint::similarity` (lines 84-123): zero when either
hash list is empty; otherwise each of `self`'s hashes is looked up in `other`
(`position` = first index), collecting `|Δt|` for the matches; the score is
(match count / longer hash count) times a time-consistency factor.  Rust's
out-of-range indexing cannot occur on pipeline fingerprints, whose hash and
offset lists are parallel; `getD` supplies the default 0 outside that range. -/
def Fingerprint.similarity (self other : Fingerprint α) : α :=
  if self.hashes = [] ∨ other.hashes = [] then 0
  else
    let time_diffs := self.hashes.enum.filterMap (fun ih =>
      match other.hashes.findIdx? (fun hash2 => hash2 == ih.2) with
      | some j => some |self.time_offsets.getD ih.1 0 - other.time_offsets.getD j 0|
      | none => none)
    let num_matched := time_diffs.length
    if num_matched = 0 then 0
    else
      let hash_similarity :=
        (num_matched : α) / ((max self.hashes.length other.hashes.length : ℕ) : α)
      let time_consistency :=
        if time_diffs = [] then 0
        else
          let avg_time_diff := time_diffs.sum / (time_diffs.length : α)
          if avg_time_diff < 1 / 10 then 1
          else if avg_time_diff < 1 / 2 then 4 / 5
          else 1 / 2
      hash_similarity * time_consistency

/-- fingerprint.rs `FingerprintMatcher` (lines 296-307): the inverted index
`hash -> [(song_id, time_offset)]`.  The `HashMap` is modelled as an
association list with unique keys; lookup finds the first matching key. -/
structure FingerprintMatcher (α : Type) where
  hash_table : List (ℕ × List (ℕ × α))

/-- The match events of fingerprint.rs `FingerprintMatcher::find_matches`
(lines 323-334): for each query `(hash, time)` pair in order, look the hash up
in the table and record `(song_id, |query_time - song_time|)` for every posting. -/
def matchEvents (m : FingerprintMatcher α) (query : Fingerprint α) : List (ℕ × α) :=
  (query.hashes.zip query.time_offsets).flatMap (fun hq =>
    match m.hash_table.find? (fun e => e.1 == hq.1) with
    | some e => e.2.map (fun st => (st.1, |hq.2 - st.2|))
    | none => [])

/-- The per-song list of absolute time differences accumulated by
`find_matches` into `song_matches` (its `HashMap<usize, Vec<f32>>`). -/
def songTimeDiffs (m : FingerprintMatcher α) (query : Fingerprint α) (song_id : ℕ) : List α :=
  (matchEvents m query).filterMap (fun ev => if ev.1 = song_id then some ev.2 else none)

/-- fingerprint.rs `FingerprintMatcher::find_matches` (lines 320-354): group
the match events per song, keep songs with at least `min_matches` events, score
each as `num_matches * time_consistency` (1 when the mean `|Δt|` is below 0.1 s,
else 0.5), and sort by score descending.  The `HashMap` iteration order is
unspecified in Rust; the model iterates song ids in the deduplicated event
order, which feeds the same per-song data to the final sort. -/
def find_matches (m : FingerprintMatcher α) (query : Fingerprint α) (min_matches : ℕ) :
    List (ℕ × α × ℕ) :=
  let results := ((matchEvents m query).map Prod.fst).dedup.filterMap (fun song_id =>
    let time_diffs := songTimeDiffs m query song_id
    if min_matches ≤ time_diffs.length then
      let num_matches := time_diffs.length
      let avg_time_diff := time_diffs.sum / (num_matches : α)
      let time_consistency : α := if avg_time_diff < 1 / 10 then 1 else 1 / 2
      some (song_id, (num_matches : α) * time_consistency, num_matches)
    else none)
  results.mergeSort (fun a b => decide (b.2.1 ≤ a.2.1))

/-- Follows the spec's words, for comparison with `find_matches`: the offsets
`δ = t_track − t_query` of a candidate track's hash matches are put in a
histogram of bin width 20 ms, and the track's score is the mode of that
histogram — the largest single-bin count. -/
def specOffsetHistogramMode (m : FingerprintMatcher α) (query : Fingerprint α) (song_id : ℕ) :
    ℕ :=
  let offsets := (query.hashes.zip query.time_offsets).flatMap (fun hq =>
    match m.hash_table.find? (fun e => e.1 == hq.1) with
    | some e => e.2.filterMap (fun st => if st.1 = song_id then some (st.2 - hq.2) else none)
    | none => [])
  let bins := offsets.map (fun d => ⌊d / (2 / 100)⌋)
  (bins.map (fun b => bins.count b)).foldr max 0

/-- Twelve peaks within one second of each other: a counterexample peak list
whose first anchor is paired with eleven targets. -/
def peaks12 : List (SpectralPeak ℚ) :=
  ⟨100, 0, 1⟩ :: List.replicate 11 ⟨100, 1, 1⟩

/-- Concrete matcher state for refuting the histogram-mode score claim: one
indexed song (id 0) holding hashes 1 and 2 at time 0 and hash 3 at time 0.5 s. -/
def cexMatcher : FingerprintMatcher ℚ :=
  ⟨[(1, [(0, 0)]), (2, [(0, 0)]), (3, [(0, 1 / 2)])]⟩

/-- Concrete metadata used by the counterexample fingerprints. -/
def cexMetadata : FingerprintMetadata ℚ :=
  ⟨44100, 1, 2049, 4096, 1 / 2⟩

/-- Concrete query fingerprint: hashes 1, 2, 3, all with anchor time 0. -/
def cexQuery : Fingerprint ℚ :=
  ⟨[1, 2, 3], [0, 0, 0], [], cexMetadata⟩

/-- Failure of a fallible audio-engine operation.  The Rust code returns
`anyhow::Result`; `panicked` models a Rust panic (usize subtraction underflow in
debug builds, or the equivalent out-of-range abort of the release build, and
`step_by(0)`).  The source error type (error.rs `AudioEngineError`) has no
`InputTooShort` variant, and fingerprint.rs constructs no error value at all. -/
inductive EngineFailure where
  | panicked
deriving DecidableEq

/-- Magnitude spectrogram (ndarray `Array2<f32>` of shape `(num_bins, num_frames)`):
`rows` bins by `cols` frames with a total entry function. -/
structure Spectro where
  rows : ℕ
  cols : ℕ
  entry : ℕ → ℕ → ℝ

/-- Hamming window coefficient (fingerprint.rs line 163):
`0.54 - 0.46 * cos(2π i / (W - 1))`; `W - 1` is usize subtraction. -/
noncomputable def hammingCoeff (window_size i : ℕ) : ℝ :=
  0.54 - 0.46 * Real.cos (2 * Real.pi * i / ((window_size - 1 : ℕ) : ℝ))

/-- One frame of samples starting at `start`, multiplied pointwise by the
Hamming window (fingerprint.rs lines 158-166). -/
noncomputable def windowedFrame (audio : List ℝ) (start window_size : ℕ) : List ℝ :=
  ((audio.drop start).take window_size).enum.map
    (fun ix => ix.2 * hammingCoeff window_size ix.1)

/-- Magnitude of bin `k` of the unnormalized forward FFT of `xs`
(rustfft convention, `X_k = Σ_n x_n e^{-2πikn/N}`), as stored by
fingerprint.rs lines 168-180 (`complex_val.norm()`). -/
noncomputable def dftMagnitude (xs : List ℝ) (k : ℕ) : ℝ :=
  Complex.abs ((xs.enum.map (fun nx =>
    (nx.2 : ℂ) * Complex.exp (-(2 * Real.pi * Complex.I * k * nx.1 / (xs.length : ℝ))))).sum)

/-- fingerprint.rs `compute_spectrogram` (lines 137-184).  A signal shorter than
the window makes `audio_data.len() - window_size` underflow and panic, and
`step_by(0)` panics: both are `EngineFailure.panicked`.  Otherwise the result
has `window_size / 2 + 1` bins (rows) and `(len - W) / H + 1` frames (columns);
the frame loop enumerates starts `0, H, 2H, ...` up to `len - W`, which fills
exactly those `(len - W) / H + 1` columns, frame `f` holding the magnitudes of
the windowed FFT of `audio[f*H .. f*H+W)`.  Entries outside the allocated
shape are the `Array2::zeros` default 0. -/
noncomputable def compute_spectrogram (audio_data : List ℝ)
    (window_size hop_size _sample_rate : ℕ) : Except EngineFailure Spectro :=
  if window_size ≤ audio_data.length then
    if 0 < hop_size then
      .ok
        { rows := window_size / 2 + 1
          cols := (audio_data.length - window_size) / hop_size + 1
          entry := fun b f =>
            if b < window_size / 2 + 1 ∧ f * hop_size + window_size ≤ audio_data.length then
              dftMagnitude (windowedFrame audio_data (f * hop_size) window_size) b
            else 0 }
    else .error .panicked
  else .error .panicked

/-- Column `f` of the spectrogram (`spectrogram.column(frame_idx)`), as the
list of its `rows` bin magnitudes. -/
noncomputable def columnOf (s : Spectro) (f : ℕ) : List ℝ :=
  (List.range s.rows).map (fun b => s.entry b f)

/-- fingerprint.rs `calculate_adaptive_threshold` (lines 240-250): over the
local slice `[bin - 5, min (bin + 6) len)` of the frame spectrum (saturating
usize subtraction), `mean + 2 * std` with the ndarray conventions
`mean = Σx / n` (`unwrap_or(0.0)` for the empty slice, matching division by
zero) and `std(1.0) = sqrt(Σ(x - mean)² / (n - 1))` computed in f32. -/
noncomputable def calculate_adaptive_threshold (spectrum : List ℝ) (bin_idx : ℕ) : ℝ :=
  let window_size := 10
  let start := bin_idx - window_size / 2
  let stop := min (bin_idx + window_size / 2 + 1) spectrum.length
  let local_spectrum := (spectrum.drop start).take (stop - start)
  let n := local_spectrum.length
  let mean := local_spectrum.sum / (n : ℝ)
  let std := Real.sqrt (((local_spectrum.map (fun x => (x - mean) ^ 2)).sum) / ((n : ℝ) - 1))
  mean + 2 * std

/-- The peak test of fingerprint.rs lines 211-226 for an interior bin: a strict
local maximum over both frequency neighbours that also exceeds the adaptive
threshold. -/
noncomputable def isPeakBin (col : List ℝ) (bin_idx : ℕ) : Prop :=
  col.getD bin_idx 0 > col.getD (bin_idx - 1) 0 ∧
    col.getD bin_idx 0 > col.getD (bin_idx + 1) 0 ∧
    col.getD bin_idx 0 > calculate_adaptive_threshold col bin_idx

noncomputable instance (col : List ℝ) (bin_idx : ℕ) : Decidable (isPeakBin col bin_idx) := by
  unfold isPeakBin
  infer_instance

/-- The peak-collection loops of fingerprint.rs `find_spectral_peaks`
(lines 206-228): scan every frame's interior bins `1 .. num_bins - 2` for
peaks, converting `(bin, frame)` to frequency `bin * sr / (2 (num_bins - 1))`
and time `frame * hop / sr`. -/
noncomputable def rawPeaks (s : Spectro) (sample_rate hop_size : ℕ) :
    List (SpectralPeak ℝ) :=
  (List.range s.cols).flatMap (fun frame_idx =>
    let col := columnOf s frame_idx
    ((List.range' 1 (s.rows - 2)).filter (fun bin_idx => decide (isPeakBin col bin_idx))).map
      (fun (bin_idx : ℕ) =>
        { frequency := (bin_idx : ℝ) * (sample_rate : ℝ) / (2 * ((s.rows - 1 : ℕ) : ℝ))
          time := (frame_idx : ℝ) * (hop_size : ℝ) / (sample_rate : ℝ)
          magnitude := col.getD bin_idx 0 }))

/-- fingerprint.rs `find_spectral_peaks` (lines 187-237): collect the peaks of
every frame, sort by magnitude descending (`sort_by` is stable) and keep the
strongest 1000 (`truncate(1000)`). -/
noncomputable def find_spectral_peaks (s : Spectro) (sample_rate hop_size : ℕ) :
    List (SpectralPeak ℝ) :=
  ((rawPeaks s sample_rate hop_size).mergeSort
    (fun a b => decide (b.magnitude ≤ a.magnitude))).take 1000

/-- fingerprint.rs `Fingerprint::generate` (lines 49-81): fixed parameters
`sample_rate = 44100`, `window_size = 4096`, `overlap = 0.5`, so
`hop_size = (4096 * 0.5) as usize = 2048`; spectrogram, peaks, hash pairs, and
metadata with `duration = len / 44100` and `num_bins = spectrogram.nrows()`. -/
noncomputable def Fingerprint.generate (audio_data : List ℝ) :
    Except EngineFailure (Fingerprint ℝ) :=
  match compute_spectrogram audio_data 4096 2048 44100 with
  | .error e => .error e
  | .ok spectrogram =>
    let peaks := find_spectral_peaks spectrogram 44100 2048
    let pairs := generate_hash_pairs peaks
    .ok
      { hashes := pairs.1
        time_offsets := pairs.2
        peaks := peaks
        metadata :=
          { sample_rate := 44100
            duration := (audio_data.length : ℝ) / 44100
            num_bins := spectrogram.rows
            window_size := 4096
            overlap := 1 / 2 } }

/-- The C9 invariant, stated over the result of the fallible pipeline: when
generation succeeds, every emitted anchor time offset `t` satisfies
`0 ≤ t < duration`. -/
def anchorTimesWithinDuration : Except EngineFailure (Fingerprint ℝ) → Prop
  | .ok fp => ∀ t ∈ fp.time_offsets, 0 ≤ t ∧ t < fp.metadata.duration
  | .error _ => True

/-- optimized_fingerprint.rs `FeatureWeights` (lines 37-51). -/
structure FeatureWeights where
  hash_weight : ℝ
  mfcc_weight : ℝ
  chroma_weight : ℝ
  rhythm_weight : ℝ
  language_weight : ℝ
  temporal_weight : ℝ

/-- optimized_fingerprint.rs `FeatureConfidence` (lines 54-68). -/
structure FeatureConfidence where
  hash_confidence : ℝ
  mfcc_confidence : ℝ
  chroma_confidence : ℝ
  rhythm_confidence : ℝ
  language_confidence : ℝ
  temporal_confidence : ℝ

/-- optimized_fingerprint.rs `ProcessingMetadata` (lines 71-81). -/
structure ProcessingMetadata where
  processing_time_ms : ℝ
  memory_usage_mb : ℝ
  simd_operations : ℕ
  cache_hit_ratio : ℝ

/-- optimized_fingerprint.rs `OptimizedFingerprint` (lines 17-34). -/
structure OptimizedFingerprint where
  hash_fingerprint : Fingerprint ℝ
  mfcc_features : List ℝ
  chroma_features : List ℝ
  rhythm_features : List ℝ
  feature_weights : FeatureWeights
  feature_confidence : FeatureConfidence
  processing_metadata : ProcessingMetadata

/-- optimized_fingerprint.rs `cosine_similarity` (lines 569-583): zero when the
lengths differ or the vectors are empty, zero when either L2 norm is zero, else
the normalized dot product. -/
noncomputable def cosine_similarity (a b : List ℝ) : ℝ :=
  if a.length ≠ b.length ∨ a = [] then 0
  else
    let dot_product := ((a.zip b).map (fun xy => xy.1 * xy.2)).sum
    let norm_a := Real.sqrt ((a.map (fun x => x * x)).sum)
    let norm_b := Real.sqrt ((b.map (fun x => x * x)).sum)
    if norm_a = 0 ∨ norm_b = 0 then 0 else dot_product / (norm_a * norm_b)

/-- optimized_fingerprint.rs `OptimizedFingerprint::robust_similarity`
(lines 137-172): the four per-feature similarities, each multiplied by both
sides' confidence and the corresponding weight, summed and divided by the sum
of the four weights when that sum is positive, else 0. -/
noncomputable def OptimizedFingerprint.robust_similarity
    (self other : OptimizedFingerprint) : ℝ :=
  let hash_similarity := self.hash_fingerprint.similarity other.hash_fingerprint
  let mfcc_similarity := cosine_similarity self.mfcc_features other.mfcc_features
  let chroma_similarity := cosine_similarity self.chroma_features other.chroma_features
  let rhythm_similarity := cosine_similarity self.rhythm_features other.rhythm_features
  let weighted_sum :=
    hash_similarity * self.feature_confidence.hash_confidence *
        other.feature_confidence.hash_confidence * self.feature_weights.hash_weight +
      mfcc_similarity * self.feature_confidence.mfcc_confidence *
        other.feature_confidence.mfcc_confidence * self.feature_weights.mfcc_weight +
      chroma_similarity * self.feature_confidence.chroma_confidence *
        other.feature_confidence.chroma_confidence * self.feature_weights.chroma_weight +
      rhythm_similarity * self.feature_confidence.rhythm_confidence *
        other.feature_confidence.rhythm_confidence * self.feature_weights.rhythm_weight
  let total_weight := self.feature_weights.hash_weight + self.feature_weights.mfcc_weight +
    self.feature_weights.chroma_weight + self.feature_weights.rhythm_weight
  if 0 < total_weight then weighted_sum / total_weight else 0

/-- Follows the spec's words, for comparison with `cosine_similarity`: the
cosine similarity of two feature vectors of equal length, taken as zero when
either has zero norm. -/
noncomputable def specCosine (a b : List ℝ) : ℝ :=
  if a.length = b.length ∧ Real.sqrt ((a.map (fun x => x * x)).sum) ≠ 0 ∧
      Real.sqrt ((b.map (fun x => x * x)).sum) ≠ 0 then
    ((a.zip b).map (fun xy => xy.1 * xy.2)).sum /
      (Real.sqrt ((a.map (fun x => x * x)).sum) * Real.sqrt ((b.map (fun x => x * x)).sum))
  else 0

/-- Follows the spec's words, for comparison with `robust_similarity`: the
fused score `Σ_f w_f conf_f(query) conf_f(candidate) sim_f / Σ_f w_f` over
`f ∈ {hash, mfcc, chroma, rhythm}`, with the auxiliary similarities the cosine
similarities of the corresponding vectors. -/
noncomputable def specFusedScore (query candidate : OptimizedFingerprint) : ℝ :=
  (query.feature_weights.hash_weight * query.feature_confidence.hash_confidence *
        candidate.feature_confidence.hash_confidence *
        (query.hash_fingerprint.similarity candidate.hash_fingerprint) +
      query.feature_weights.mfcc_weight * query.feature_confidence.mfcc_confidence *
        candidate.feature_confidence.mfcc_confidence *
        specCosine query.mfcc_features candidate.mfcc_features +
      query.feature_weights.chroma_weight * query.feature_confidence.chroma_confidence *
        candidate.feature_confidence.chroma_confidence *
        specCosine query.chroma_features candidate.chroma_features +
      query.feature_weights.rhythm_weight * query.feature_confidence.rhythm_confidence *
        candidate.feature_confidence.rhythm_confidence *
        specCosine query.rhythm_features candidate.rhythm_features) /
    (query.feature_weights.hash_weight + query.feature_weights.mfcc_weight +
      query.feature_weights.chroma_weight + query.feature_weights.rhythm_weight)

/-- Modelled from the spec: the serialized fingerprint blob.  The source
delegates `Fingerprint::to_bytes`/`from_bytes` to the external `bincode` crate
(fingerprint.rs lines 125-134), whose code is not part of this repository; its
documented default encoding is little-endian fixed-width integers with `u64`
lengths for `Vec`s, and `f32` written as its four IEEE bytes.  Floats are
therefore modelled here by their 32-bit patterns (ℕ below `2 ^ 32`), i.e. the
`Fingerprint ℕ` instantiation.  `bytesLE w n` is the `w`-byte little-endian
encoding of `n`. -/
def bytesLE : ℕ → ℕ → List ℕ
  | 0, _ => []
  | w + 1, n => n % 256 :: bytesLE w (n / 256)

/-- Modelled from the spec: read a `w`-byte little-endian integer, returning it
with the remaining bytes. -/
def readLE : ℕ → List ℕ → Option (ℕ × List ℕ)
  | 0, l => some (0, l)
  | _ + 1, [] => none
  | w + 1, b :: l =>
    match readLE w l with
    | some (v, r) => some (b + 256 * v, r)
    | none => none

/-- Modelled from the spec: read `k` consecutive records with `read1`. -/
def readN {β : Type} (read1 : List ℕ → Option (β × List ℕ)) :
    ℕ → List ℕ → Option (List β × List ℕ)
  | 0, l => some ([], l)
  | k + 1, l =>
    match read1 l with
    | some (x, r) =>
      match readN read1 k r with
      | some (xs, r') => some (x :: xs, r')
      | none => none
    | none => none

/-- Modelled from the spec: a serialized spectral peak, three f32 bit patterns. -/
def peakToBytes (p : SpectralPeak ℕ) : List ℕ :=
  bytesLE 4 p.frequency ++ bytesLE 4 p.time ++ bytesLE 4 p.magnitude

/-- Modelled from the spec: a serialized spectral peak, read back. -/
def readPeak (l : List ℕ) : Option (SpectralPeak ℕ × List ℕ) :=
  (readLE 4 l).bind fun fq =>
  (readLE 4 fq.2).bind fun t =>
  (readLE 4 t.2).map fun mg => (⟨fq.1, t.1, mg.1⟩, mg.2)

/-- Modelled from the spec: serialized metadata — `u32 sample_rate`,
`f32 duration`, `usize num_bins`, `usize window_size`, `f32 overlap`, in
declaration order. -/
def metadataToBytes (m : FingerprintMetadata ℕ) : List ℕ :=
  bytesLE 4 m.sample_rate ++ bytesLE 4 m.duration ++ bytesLE 8 m.num_bins ++
    bytesLE 8 m.window_size ++ bytesLE 4 m.overlap

/-- Modelled from the spec: serialized metadata, read back. -/
def readMetadata (l : List ℕ) : Option (FingerprintMetadata ℕ × List ℕ) :=
  (readLE 4 l).bind fun sr =>
  (readLE 4 sr.2).bind fun du =>
  (readLE 8 du.2).bind fun nb =>
  (readLE 8 nb.2).bind fun ws =>
  (readLE 4 ws.2).map fun ov => (⟨sr.1, du.1, nb.1, ws.1, ov.1⟩, ov.2)

/-- Modelled from the spec: `Fingerprint::to_bytes` — each `Vec` as a `u64`
length followed by its records, then the metadata, fields in declaration
order. -/
def Fingerprint.to_bytes (fp : Fingerprint ℕ) : List ℕ :=
  bytesLE 8 fp.hashes.length ++ fp.hashes.flatMap (bytesLE 8) ++
    bytesLE 8 fp.time_offsets.length ++ fp.time_offsets.flatMap (bytesLE 4) ++
    bytesLE 8 fp.peaks.length ++ fp.peaks.flatMap peakToBytes ++
    metadataToBytes fp.metadata

/-- Modelled from the spec: `Fingerprint::from_bytes` — parse the fields in
order; any truncation fails (bincode reads a prefix of the buffer). -/
def Fingerprint.from_bytes (data : List ℕ) : Option (Fingerprint ℕ) :=
  (readLE 8 data).bind fun nh =>
  (readN (readLE 8) nh.1 nh.2).bind fun hs =>
  (readLE 8 hs.2).bind fun nt =>
  (readN (readLE 4) nt.1 nt.2).bind fun ts =>
  (readLE 8 ts.2).bind fun np =>
  (readN readPeak np.1 np.2).bind fun ps =>
  (readMetadata ps.2).map fun md => ⟨hs.1, ts.1, ps.1, md.1⟩

/-- Bit-level well-formedness of a `Fingerprint ℕ`: every field value fits the
width the Rust type gives it (`u64` hashes and `usize` lengths and counts,
32-bit float patterns). -/
def Fingerprint.WFbits (fp : Fingerprint ℕ) : Prop :=
  fp.hashes.length < 2 ^ 64 ∧ (∀ h ∈ fp.hashes, h < 2 ^ 64) ∧
    fp.time_offsets.length < 2 ^ 64 ∧ (∀ t ∈ fp.time_offsets, t < 2 ^ 32) ∧
    fp.peaks.length < 2 ^ 64 ∧
    (∀ p ∈ fp.peaks, p.frequency < 2 ^ 32 ∧ p.time < 2 ^ 32 ∧ p.magnitude < 2 ^ 32) ∧
    fp.metadata.sample_rate < 2 ^ 32 ∧ fp.metadata.duration < 2 ^ 32 ∧
    fp.metadata.num_bins < 2 ^ 64 ∧ fp.metadata.window_size < 2 ^ 64 ∧
    fp.metadata.overlap < 2 ^ 32

/-- A one-frame spectrogram with thirteen bins and a single spike at bin 6:
concrete input for the peak-picker witness. -/
noncomputable def spikeSpectro : Spectro :=
  { rows := 13, cols := 1, entry := fun b _ => if b = 6 then 1 else 0 }

/-- The peak the picker extracts from `spikeSpectro`:
frequency `6 * 44100 / (2 * 12)`, time `0 * 2048 / 44100`, magnitude 1. -/
noncomputable def spikePeak : SpectralPeak ℝ :=
  { frequency := 6 * 44100 / (2 * 12), time := 0, magnitude := 1 }

/-- A concrete real-valued fingerprint with one hash, used by the fusion
counterexample: it matches itself with hash similarity 1. -/
noncomputable def oneHashFp : Fingerprint ℝ :=
  ⟨[1], [0], [], ⟨44100, 1, 2049, 4096, 1 / 2⟩⟩

/-- Fusion counterexample input: empty auxiliary vectors, full confidence, and
`hash_weight = -1` with the other three fused weights 0, so the four-weight
total is negative. -/
noncomputable def cexOptimized : OptimizedFingerprint :=
  ⟨oneHashFp, [], [], [], ⟨-1, 0, 0, 0, 0, 0⟩, ⟨1, 1, 1, 1, 1, 1⟩, ⟨0, 0, 0, 0.85⟩⟩

/-- Fusion witness input: like `cexOptimized` but with `hash_weight = 1`, so
the total weight is positive. -/
noncomputable def witOptimized : OptimizedFingerprint :=
  ⟨oneHashFp, [], [], [], ⟨1, 0, 0, 0, 0, 0⟩, ⟨1, 1, 1, 1, 1, 1⟩, ⟨0, 0, 0, 0.85⟩⟩

/-- An empty-hash query fingerprint over ℚ, for the empty-query claims. -/
def emptyQuery : Fingerprint ℚ :=
  ⟨[], [], [], cexMetadata⟩

/-- A small concrete bit-pattern fingerprint for the serialization witness. -/
def smallFp : Fingerprint ℕ :=
  ⟨[5, 2 ^ 64 - 1], [7, 9], [⟨1, 2, 3⟩], ⟨44100, 1065353216, 2049, 4096, 1056964608⟩⟩

/-! ## Theorems -/

/-- C2: for every input signal strictly shorter than the window length, the
spectrogram builder does not return an `InputTooShort` error — the usize
subtraction `audio_data.len() - window_size` underflows and the call panics.
(The claim is right about rejecting the input, but the code crashes instead of
returning the error its `Result` signature promises.) -/
theorem compute_spectrogram_short_input_panics (audio : List ℝ)
    (window_size hop_size sample_rate : ℕ) (h : audio.length < window_size) :
    compute_spectrogram audio window_size hop_size sample_rate = .error .panicked := by
  unfold compute_spectrogram
  rw [if_neg (by omega)]

/-- Witness for `compute_spectrogram_short_input_panics` at the empty signal. -/
theorem compute_spectrogram_short_input_panics_witness :
    ([] : List ℝ).length < 4096 ∧
      compute_spectrogram [] 4096 2048 44100 = .error .panicked :=
  ⟨by simp, compute_spectrogram_short_input_panics [] 4096 2048 44100 (by simp)⟩

/-- C8 (counterexample): on a query fingerprint with zero hashes the matcher
does not fail with an `EmptyQuery` error — `find_matches` is infallible and
returns the ordinary empty result list, here against a non-empty index. -/
theorem find_matches_empty_query_no_error :
    find_matches cexMatcher emptyQuery 1 = [] := by
  simp [find_matches, matchEvents, songTimeDiffs, emptyQuery]

/-- C8 (amended): if the query fingerprint contains zero hashes, `find_matches`
returns the empty list of candidates (a normal result; the function has no
error channel and the source defines no `EmptyQuery` error). -/
theorem find_matches_empty_query_returns_nil (m : FingerprintMatcher α)
    (query : Fingerprint α) (min_matches : ℕ) (h : query.hashes = []) :
    find_matches m query min_matches = [] := by
  simp [find_matches, matchEvents, songTimeDiffs, h]

/-- Witness for `find_matches_empty_query_returns_nil` at a concrete matcher
and the concrete empty query. -/
theorem find_matches_empty_query_returns_nil_witness :
    emptyQuery.hashes = [] ∧ find_matches cexMatcher emptyQuery 2 = [] :=
  ⟨rfl, find_matches_empty_query_returns_nil cexMatcher emptyQuery 2 rfl⟩

/-- C4 (counterexample): a 12-peak list all within one second refutes the
fan-out bound — the first anchor is paired with eleven targets, and eleven of
the emitted pairs carry its anchor time 0 (the other peaks' times are 1). -/
theorem generate_hash_pairs_fanout_exceeds_ten :
    hashPairFanOut peaks12 0 = 11 ∧
      ((generate_hash_pairs peaks12).2.count (0 : ℚ)) = 11 ∧ ¬(11 ≤ 10) := by
  refine ⟨?_, ?_, by norm_num⟩
  · norm_num [hashPairFanOut, peaks12, takeTargets, List.replicate]
  · norm_num [generate_hash_pairs, peaks12, takeTargets, List.replicate, List.count_cons,
      List.count_append]

/-- C4 (amended): the hasher pairs each anchor with every following peak of the
magnitude-sorted list up to (but excluding) the first one more than 10 s away
in time; the per-anchor fan-out is this run length — unbounded, not capped at
10 — and the emitted hash and offset streams both have length equal to the sum
of the fan-outs of all anchors. -/
theorem generate_hash_pairs_length_eq_sum_fanout (peaks : List (SpectralPeak α)) :
    (generate_hash_pairs peaks).1.length =
        ∑ i ∈ Finset.range peaks.length, hashPairFanOut peaks i ∧
      (generate_hash_pairs peaks).2.length =
        ∑ i ∈ Finset.range peaks.length, hashPairFanOut peaks i := by
  induction peaks with
  | nil => simp [generate_hash_pairs]
  | cons p rest ih =>
    have hsucc : ∀ i, hashPairFanOut (p :: rest) (i + 1) = hashPairFanOut rest i := by
      intro i
      simp [hashPairFanOut, List.drop_succ_cons]
    have hsum : ∑ i ∈ Finset.range (rest.length + 1), hashPairFanOut (p :: rest) i =
        (takeTargets p rest).length + ∑ i ∈ Finset.range rest.length, hashPairFanOut rest i := by
      rw [Finset.sum_range_succ']
      simp only [hsucc]
      have h0 : hashPairFanOut (p :: rest) 0 = (takeTargets p rest).length := rfl
      rw [h0, Nat.add_comm]
    constructor
    · simp only [generate_hash_pairs, List.length_append, List.length_map, List.length_cons,
        hsum, ih.1]
    · simp only [generate_hash_pairs, List.length_append, List.length_map, List.length_cons,
        hsum, ih.2]

/-- C1 (counterexample): against the concrete index `cexMatcher`, the query
`cexQuery` makes three hash matches with song 0 at offsets 0, 0 and 0.5 s.
The offset histogram's mode (bin width 20 ms) is 2, but `find_matches` reports
the score `3 * 0.5 = 1.5` (mean `|Δt| = 1/6 ≥ 0.1` halves the match count), so
the reported score is not the histogram mode. -/
theorem find_matches_score_not_histogram_mode :
    find_matches cexMatcher cexQuery 1 = [(0, 3 / 2, 3)] ∧
      specOffsetHistogramMode cexMatcher cexQuery 0 = 2 ∧
      ((3 : ℚ) / 2) ≠ ((2 : ℕ) : ℚ) := by
  refine ⟨?_, ?_, by norm_num⟩
  · norm_num [find_matches, matchEvents, songTimeDiffs, cexMatcher, cexQuery, cexMetadata,
      List.dedup_cons_of_mem, List.dedup_cons_of_not_mem, List.filterMap_cons, abs_of_nonneg]
  · norm_num [specOffsetHistogramMode, cexMatcher, cexQuery, cexMetadata, List.count_cons,
      -List.map_map, List.filterMap_cons]

/-- C1 (amended): every candidate `(song_id, score, n)` reported by
`find_matches` satisfies: `n` is the number of that song's hash-match events,
`n` reaches `min_matches`, and the score is `n` times the time-consistency
factor — 1 when the mean absolute time difference is below 0.1 s, else 0.5.
The score is not the mode of the 20 ms offset histogram. -/
theorem find_matches_score_characterization (m : FingerprintMatcher α)
    (query : Fingerprint α) (min_matches song_id : ℕ) (score : α) (n : ℕ)
    (h : (song_id, score, n) ∈ find_matches m query min_matches) :
    min_matches ≤ (songTimeDiffs m query song_id).length ∧
      n = (songTimeDiffs m query song_id).length ∧
      score = (n : α) *
        (if (songTimeDiffs m query song_id).sum / ((n : α)) < 1 / 10 then 1 else 1 / 2) := by
  unfold find_matches at h
  rw [List.mem_mergeSort, List.mem_filterMap] at h
  obtain ⟨sid', _, heq⟩ := h
  by_cases hc : min_matches ≤ (songTimeDiffs m query sid').length
  · rw [if_pos hc] at heq
    rw [Option.some_inj, Prod.mk.injEq, Prod.mk.injEq] at heq
    obtain ⟨h1, h2, h3⟩ := heq
    subst h1 h3
    exact ⟨hc, rfl, h2.symm⟩
  · rw [if_neg hc] at heq
    exact absurd heq (by simp)

/-- Witness for `find_matches_score_characterization` at the concrete matcher
and query of the counterexample (the membership hypothesis is discharged by
evaluating `find_matches`). -/
theorem find_matches_score_characterization_witness :
    (0, (3 : ℚ) / 2, 3) ∈ find_matches cexMatcher cexQuery 1 ∧
      (1 ≤ (songTimeDiffs cexMatcher cexQuery 0).length ∧
        3 = (songTimeDiffs cexMatcher cexQuery 0).length ∧
        (3 : ℚ) / 2 = ((3 : ℕ) : ℚ) *
          (if (songTimeDiffs cexMatcher cexQuery 0).sum / (((3 : ℕ) : ℚ)) < 1 / 10 then 1
            else 1 / 2)) := by
  have hmem : (0, (3 : ℚ) / 2, 3) ∈ find_matches cexMatcher cexQuery 1 := by
    norm_num [find_matches, matchEvents, songTimeDiffs, cexMatcher, cexQuery, cexMetadata,
      List.dedup_cons_of_mem, List.dedup_cons_of_not_mem, List.filterMap_cons, abs_of_nonneg]
  exact ⟨hmem, find_matches_score_characterization cexMatcher cexQuery 1 0 (3 / 2) 3 hmem⟩

/-- Disjoint three-field packing: when the middle field fits 16 bits shifted to
bits 16-31 and the low field fits bits 0-15, the `u64` or-combination equals
the positional sum. -/
theorem pack_three_fields (A D T : ℕ) (hA : A < 2 ^ 31) (hD : D < 2 ^ 16)
    (hT : T < 2 ^ 16) :
    (A * 2 ^ 32 % 2 ^ 64 ||| D * 2 ^ 16 % 2 ^ 64 ||| T) = A * 2 ^ 32 + D * 2 ^ 16 + T := by
  have hA64 : A * 2 ^ 32 < 2 ^ 64 := by omega
  have hD64 : D * 2 ^ 16 < 2 ^ 64 := by omega
  rw [Nat.mod_eq_of_lt hA64, Nat.mod_eq_of_lt hD64]
  have e1 : A * 2 ^ 32 ||| D * 2 ^ 16 = A * 2 ^ 32 + D * 2 ^ 16 := by
    have hb : D * 2 ^ 16 < 2 ^ 32 := by omega
    calc A * 2 ^ 32 ||| D * 2 ^ 16 = 2 ^ 32 * A ||| D * 2 ^ 16 := by rw [Nat.mul_comm]
      _ = 2 ^ 32 * A + D * 2 ^ 16 := (Nat.mul_add_lt_is_or hb A).symm
      _ = A * 2 ^ 32 + D * 2 ^ 16 := by ring
  rw [e1]
  have e2 : A * 2 ^ 32 + D * 2 ^ 16 = 2 ^ 16 * (A * 2 ^ 16 + D) := by ring
  rw [e2, ← Nat.mul_add_lt_is_or hT]

/-- C3 (amended): when the three quantized components are non-negative and the
frequency-delta and time-delta components fit 16 bits, they occupy the disjoint
bit fields 32-63, 16-31 and 0-15 of the hash, each recoverable by masking.
(For a negative frequency delta the `as u64` sign extension floods bits 16-63
and the anchor field is overwritten — see the counterexample.) -/
theorem create_hash_fields_disjoint_of_nonneg (f1 fd td : ℚ)
    (ha : 0 ≤ i32cast (rustRound (f1 / 10)))
    (hd0 : 0 ≤ i32cast (rustRound (fd / 10)))
    (hd : i32cast (rustRound (fd / 10)) < 2 ^ 16)
    (ht0 : 0 ≤ i32cast (rustRound (td * 100)))
    (ht : i32cast (rustRound (td * 100)) < 2 ^ 16) :
    create_hash f1 fd td / 2 ^ 32 = (i32cast (rustRound (f1 / 10))).toNat ∧
      create_hash f1 fd td / 2 ^ 16 % 2 ^ 16 = (i32cast (rustRound (fd / 10))).toNat ∧
      create_hash f1 fd td % 2 ^ 16 = (i32cast (rustRound (td * 100))).toNat := by
  have hcap : ∀ z : ℤ, i32cast z ≤ 2 ^ 31 - 1 := by
    intro z
    simp only [i32cast]
    omega
  have hu : ∀ z : ℤ, 0 ≤ z → z < 2 ^ 64 → u64cast z = z.toNat := by
    intro z h0 h64
    simp only [u64cast]
    rw [Int.emod_eq_of_lt h0 h64]
  set A := i32cast (rustRound (f1 / 10)) with hAdef
  set D := i32cast (rustRound (fd / 10)) with hDdef
  set T := i32cast (rustRound (td * 100)) with hTdef
  have hAlt : A.toNat < 2 ^ 31 := by have := hcap (rustRound (f1 / 10)); omega
  have hDlt : D.toNat < 2 ^ 16 := by omega
  have hTlt : T.toNat < 2 ^ 16 := by omega
  have hch : create_hash f1 fd td =
      A.toNat * 2 ^ 32 % 2 ^ 64 ||| D.toNat * 2 ^ 16 % 2 ^ 64 ||| T.toNat := by
    simp only [create_hash, ← hAdef, ← hDdef, ← hTdef]
    rw [hu A ha (by have := hcap (rustRound (f1 / 10)); omega),
      hu D hd0 (by omega), hu T ht0 (by omega)]
  rw [hch, pack_three_fields A.toNat D.toNat T.toNat hAlt hDlt hTlt]
  refine ⟨by omega, by omega, by omega⟩

/-- Witness for `create_hash_fields_disjoint_of_nonneg` at the concrete input
`(freq1, freq_diff, time_diff) = (100, 100, 1)`, whose quantized components are
10, 10 and 100. -/
theorem create_hash_fields_disjoint_of_nonneg_witness :
    (0 ≤ i32cast (rustRound ((100 : ℚ) / 10)) ∧
        0 ≤ i32cast (rustRound ((100 : ℚ) / 10)) ∧
        i32cast (rustRound ((100 : ℚ) / 10)) < 2 ^ 16 ∧
        0 ≤ i32cast (rustRound ((1 : ℚ) * 100)) ∧
        i32cast (rustRound ((1 : ℚ) * 100)) < 2 ^ 16) ∧
      create_hash (100 : ℚ) 100 1 / 2 ^ 32 = (i32cast (rustRound ((100 : ℚ) / 10))).toNat ∧
        create_hash (100 : ℚ) 100 1 / 2 ^ 16 % 2 ^ 16 =
          (i32cast (rustRound ((100 : ℚ) / 10))).toNat ∧
        create_hash (100 : ℚ) 100 1 % 2 ^ 16 = (i32cast (rustRound ((1 : ℚ) * 100))).toNat := by
  have h1 : i32cast (rustRound ((100 : ℚ) / 10)) = 10 := by
    simp only [rustRound, i32cast]
    norm_num
  have h2 : i32cast (rustRound ((1 : ℚ) * 100)) = 100 := by
    simp only [rustRound, i32cast]
    norm_num
  exact ⟨⟨by rw [h1]; norm_num, by rw [h1]; norm_num, by rw [h1]; norm_num,
      by rw [h2]; norm_num, by rw [h2]; norm_num⟩,
    create_hash_fields_disjoint_of_nonneg 100 100 1 (by rw [h1]; norm_num)
      (by rw [h1]; norm_num) (by rw [h1]; norm_num) (by rw [h2]; norm_num)
      (by rw [h2]; norm_num)⟩

/-- C3 (counterexample): at `freq1 = 100`, `freq_diff = -100`, `time_diff = 0`
the quantized anchor is 10, but masking the anchor's bit field 32-63 of the
hash yields `2 ^ 32 - 1`, not 10: the sign-extended negative frequency delta
has overwritten the anchor field, so the three fields are not disjoint for a
negative delta. -/
theorem create_hash_negative_delta_overlaps_anchor :
    i32cast (rustRound ((100 : ℚ) / 10)) = 10 ∧
      create_hash (100 : ℚ) (-100) 0 / 2 ^ 32 ≠ 10 := by
  constructor
  · simp only [rustRound, i32cast]
    norm_num
  · have h : create_hash (100 : ℚ) (-100) 0 = (42949672960 ||| (18446744073708896256 ||| 0)) := by
      simp only [create_hash, rustRound, i32cast, u64cast]
      norm_num
      decide
    rw [h]
    decide

/-- Truncating the signal after the last full frame leaves every frame slice
unchanged: the windowed frame starting at `start` only reads samples below
`start + window_size`. -/
theorem windowedFrame_take (audio : List ℝ) (start window_size N : ℕ)
    (h : start + window_size ≤ N) :
    windowedFrame (audio.take N) start window_size = windowedFrame audio start window_size := by
  unfold windowedFrame
  rw [List.take_drop, List.take_take, Nat.min_eq_left h, ← List.take_drop]

/-- C5: for every signal of length `L ≥ W` (and positive window and hop), the
spectrogram is produced with exactly `(L - W) / H + 1` frames and `W / 2 + 1`
bins, and the tail samples beyond the last full frame are discarded: truncating
the signal to `((L - W) / H) * H + W` samples yields the identical spectrogram
(no padding is ever added). -/
theorem compute_spectrogram_shape_and_tail (audio : List ℝ) (W H sr : ℕ)
    (hW : 0 < W) (hH : 0 < H) (hL : W ≤ audio.length) :
    ∃ s : Spectro, compute_spectrogram audio W H sr = .ok s ∧
      s.cols = (audio.length - W) / H + 1 ∧ s.rows = W / 2 + 1 ∧
      compute_spectrogram (audio.take (((audio.length - W) / H) * H + W)) W H sr = .ok s := by
  have hqH : ((audio.length - W) / H) * H ≤ audio.length - W := Nat.div_mul_le_self _ _
  have hNle : ((audio.length - W) / H) * H + W ≤ audio.length := by omega
  have hlenN : (audio.take (((audio.length - W) / H) * H + W)).length =
      ((audio.length - W) / H) * H + W := by
    rw [List.length_take]
    omega
  refine ⟨⟨W / 2 + 1, (audio.length - W) / H + 1, fun b f =>
      if b < W / 2 + 1 ∧ f * H + W ≤ audio.length then
        dftMagnitude (windowedFrame audio (f * H) W) b
      else 0⟩, ?_, rfl, rfl, ?_⟩
  · unfold compute_spectrogram
    rw [if_pos hL, if_pos hH]
  · unfold compute_spectrogram
    rw [if_pos (show W ≤ (audio.take (((audio.length - W) / H) * H + W)).length by omega),
      if_pos hH]
    have hcols : ((audio.take (((audio.length - W) / H) * H + W)).length - W) / H + 1 =
        (audio.length - W) / H + 1 := by
      rw [hlenN, Nat.add_sub_cancel, Nat.mul_div_cancel _ hH]
    have harith : ∀ f : ℕ, f * H + W ≤ ((audio.length - W) / H) * H + W ↔
        f * H + W ≤ audio.length := by
      intro f
      constructor
      · omega
      · intro hfl
        have hfq : f ≤ (audio.length - W) / H := by
          rw [Nat.le_div_iff_mul_le hH]
          omega
        have := Nat.mul_le_mul_right H hfq
        omega
    have hentry : (fun b f =>
        if b < W / 2 + 1 ∧
            f * H + W ≤ (audio.take (((audio.length - W) / H) * H + W)).length then
          dftMagnitude
            (windowedFrame (audio.take (((audio.length - W) / H) * H + W)) (f * H) W) b
        else 0) = (fun b f =>
        if b < W / 2 + 1 ∧ f * H + W ≤ audio.length then
          dftMagnitude (windowedFrame audio (f * H) W) b
        else 0) := by
      funext b f
      by_cases hb : b < W / 2 + 1
      · by_cases hf : f * H + W ≤ audio.length
        · rw [if_pos ⟨hb, by rw [hlenN]; exact (harith f).mpr hf⟩, if_pos ⟨hb, hf⟩,
            windowedFrame_take audio (f * H) W _ ((harith f).mpr hf)]
        · rw [if_neg (by rw [hlenN]; intro hcon; exact hf ((harith f).mp hcon.2)),
            if_neg (by tauto)]
      · rw [if_neg (by tauto), if_neg (by tauto)]
    rw [hcols, hentry]

/-- Witness for `compute_spectrogram_shape_and_tail` on a concrete 8000-sample
zero signal with the pipeline's `W = 4096`, `H = 2048`. -/
theorem compute_spectrogram_shape_and_tail_witness :
    0 < 4096 ∧ 0 < 2048 ∧ 4096 ≤ (List.replicate 8000 (0 : ℝ)).length ∧
      ∃ s : Spectro, compute_spectrogram (List.replicate 8000 (0 : ℝ)) 4096 2048 44100 = .ok s ∧
        s.cols = ((List.replicate 8000 (0 : ℝ)).length - 4096) / 2048 + 1 ∧
        s.rows = 4096 / 2 + 1 ∧
        compute_spectrogram ((List.replicate 8000 (0 : ℝ)).take
          ((((List.replicate 8000 (0 : ℝ)).length - 4096) / 2048) * 2048 + 4096))
          4096 2048 44100 = .ok s :=
  ⟨by norm_num, by norm_num, by rw [List.length_replicate]; norm_num,
    compute_spectrogram_shape_and_tail (List.replicate 8000 (0 : ℝ)) 4096 2048 44100
      (by norm_num) (by norm_num) (by rw [List.length_replicate]; norm_num)⟩

/-- Structure of a raw peak: every element of `rawPeaks` arises from an
interior bin of some frame satisfying the peak test. -/
theorem of_mem_rawPeaks {s : Spectro} {sr hop : ℕ} {p : SpectralPeak ℝ}
    (hp : p ∈ rawPeaks s sr hop) :
    ∃ f b, f < s.cols ∧ 0 < b ∧ b + 1 < s.rows ∧ isPeakBin (columnOf s f) b ∧
      p = ⟨(b : ℝ) * (sr : ℝ) / (2 * ((s.rows - 1 : ℕ) : ℝ)),
        (f : ℝ) * (hop : ℝ) / (sr : ℝ), (columnOf s f).getD b 0⟩ := by
  unfold rawPeaks at hp
  rw [List.mem_flatMap] at hp
  obtain ⟨f, hf, hp⟩ := hp
  rw [List.mem_range] at hf
  simp only [List.mem_map] at hp
  obtain ⟨b, hb, rfl⟩ := hp
  rw [List.mem_filter, List.mem_range'_1] at hb
  obtain ⟨⟨hb1, hb2⟩, hbp⟩ := hb
  refine ⟨f, b, hf, by omega, by omega, of_decide_eq_true hbp, rfl⟩

/-- The raw peak list has at most `cols * rows` entries: each of the `cols`
frames contributes at most its interior-bin count. -/
theorem rawPeaks_length_le (s : Spectro) (sr hop : ℕ) :
    (rawPeaks s sr hop).length ≤ s.cols * s.rows := by
  have key : ∀ (g : ℕ → List (SpectralPeak ℝ)), (∀ x, (g x).length ≤ s.rows) →
      ∀ L : List ℕ, (L.flatMap g).length ≤ L.length * s.rows := by
    intro g hg L
    induction L with
    | nil => simp
    | cons x xs ih =>
      rw [List.flatMap_cons, List.length_append, List.length_cons]
      have := hg x
      have harith : (xs.length + 1) * s.rows = xs.length * s.rows + s.rows := by ring
      omega
  have hg : ∀ x : ℕ, (((List.range' 1 (s.rows - 2)).filter
      (fun bin_idx => decide (isPeakBin (columnOf s x) bin_idx))).map
        (fun (bin_idx : ℕ) =>
          ({ frequency := (bin_idx : ℝ) * (sr : ℝ) / (2 * ((s.rows - 1 : ℕ) : ℝ))
             time := (x : ℝ) * (hop : ℝ) / (sr : ℝ)
             magnitude := (columnOf s x).getD bin_idx 0 } : SpectralPeak ℝ))).length ≤
      s.rows := by
    intro x
    rw [List.length_map]
    have h1 := List.length_filter_le
      (fun bin_idx => decide (isPeakBin (columnOf s x) bin_idx)) (List.range' 1 (s.rows - 2))
    rw [List.length_range'] at h1
    omega
  have h := key (fun x => ((List.range' 1 (s.rows - 2)).filter
      (fun bin_idx => decide (isPeakBin (columnOf s x) bin_idx))).map
        (fun (bin_idx : ℕ) =>
          ({ frequency := (bin_idx : ℝ) * (sr : ℝ) / (2 * ((s.rows - 1 : ℕ) : ℝ))
             time := (x : ℝ) * (hop : ℝ) / (sr : ℝ)
             magnitude := (columnOf s x).getD bin_idx 0 } : SpectralPeak ℝ)))
    hg (List.range s.cols)
  rw [List.length_range] at h
  exact h

/-- Converse construction: an interior bin passing the peak test yields a
member of `find_spectral_peaks`, provided the spectrogram is small enough that
`truncate(1000)` cannot drop it. -/
theorem mem_find_spectral_peaks_of {s : Spectro} (sr hop : ℕ) {f b : ℕ}
    (hf : f < s.cols) (hb0 : 0 < b) (hb1 : b + 1 < s.rows)
    (hpb : isPeakBin (columnOf s f) b) (hsz : s.cols * s.rows ≤ 1000) :
    (⟨(b : ℝ) * (sr : ℝ) / (2 * ((s.rows - 1 : ℕ) : ℝ)),
      (f : ℝ) * (hop : ℝ) / (sr : ℝ), (columnOf s f).getD b 0⟩ : SpectralPeak ℝ) ∈
      find_spectral_peaks s sr hop := by
  have hmemraw : (⟨(b : ℝ) * (sr : ℝ) / (2 * ((s.rows - 1 : ℕ) : ℝ)),
      (f : ℝ) * (hop : ℝ) / (sr : ℝ), (columnOf s f).getD b 0⟩ : SpectralPeak ℝ) ∈
      rawPeaks s sr hop := by
    unfold rawPeaks
    rw [List.mem_flatMap]
    refine ⟨f, List.mem_range.mpr hf, ?_⟩
    simp only [List.mem_map]
    refine ⟨b, ?_, rfl⟩
    rw [List.mem_filter, List.mem_range'_1]
    exact ⟨⟨by omega, by omega⟩, decide_eq_true hpb⟩
  unfold find_spectral_peaks
  have hlen : ((rawPeaks s sr hop).mergeSort
      (fun a b => decide (b.magnitude ≤ a.magnitude))).length ≤ 1000 := by
    rw [(List.mergeSort_perm (rawPeaks s sr hop) _).length_eq]
    exact le_trans (rawPeaks_length_le s sr hop) hsz
  rw [List.take_of_length_le hlen, List.mem_mergeSort]
  exact hmemraw

/-- C6: every peak returned by the peak picker originates from an interior bin
of some frame whose magnitude strictly exceeds both immediate frequency
neighbours and the adaptive threshold `mean + 2 * std` of the ±5-bin local
window, and at most the top 1000 peaks are retained. -/
theorem find_spectral_peaks_sound (s : Spectro) (sr hop : ℕ) :
    (find_spectral_peaks s sr hop).length ≤ 1000 ∧
      ∀ p ∈ find_spectral_peaks s sr hop, ∃ f b, f < s.cols ∧ 0 < b ∧ b + 1 < s.rows ∧
        p.magnitude = (columnOf s f).getD b 0 ∧
        p.magnitude > (columnOf s f).getD (b - 1) 0 ∧
        p.magnitude > (columnOf s f).getD (b + 1) 0 ∧
        p.magnitude > calculate_adaptive_threshold (columnOf s f) b := by
  constructor
  · exact List.length_take_le 1000 _
  · intro p hp
    have hp' : p ∈ (rawPeaks s sr hop).mergeSort
        (fun a b => decide (b.magnitude ≤ a.magnitude)) := List.mem_of_mem_take hp
    rw [List.mem_mergeSort] at hp'
    obtain ⟨f, b, hf, hb0, hb1, hpb, rfl⟩ := of_mem_rawPeaks hp'
    exact ⟨f, b, hf, hb0, hb1, rfl, hpb.1, hpb.2.1, hpb.2.2⟩

/-- Witness for `find_spectral_peaks_sound`: on the one-frame spike spectrogram
the picker returns the spike as a peak, and the soundness conclusion holds for
it (the membership hypothesis is discharged by the converse construction). -/
theorem find_spectral_peaks_sound_witness :
    spikePeak ∈ find_spectral_peaks spikeSpectro 44100 2048 ∧
      (∃ f b, f < spikeSpectro.cols ∧ 0 < b ∧ b + 1 < spikeSpectro.rows ∧
        spikePeak.magnitude = (columnOf spikeSpectro f).getD b 0 ∧
        spikePeak.magnitude > (columnOf spikeSpectro f).getD (b - 1) 0 ∧
        spikePeak.magnitude > (columnOf spikeSpectro f).getD (b + 1) 0 ∧
        spikePeak.magnitude > calculate_adaptive_threshold (columnOf spikeSpectro f) b) := by
  have hcol : columnOf spikeSpectro 0 = [0, 0, 0, 0, 0, 0, 1, 0, 0, 0, 0, 0, 0] := by
    simp [columnOf, spikeSpectro, List.range_succ]
  have hth : calculate_adaptive_threshold (columnOf spikeSpectro 0) 6 < 1 := by
    rw [hcol]
    unfold calculate_adaptive_threshold
    norm_num
    have h1 : (11 : ℝ) / 5 < Real.sqrt 11 :=
      (Real.lt_sqrt (by norm_num : (0 : ℝ) ≤ 11 / 5)).mpr
        (show ((11 : ℝ) / 5) ^ 2 < 11 by norm_num)
    have h2 : (Real.sqrt 11)⁻¹ < ((11 : ℝ) / 5)⁻¹ := inv_strictAnti₀ (by norm_num) h1
    have h3 : ((11 : ℝ) / 5)⁻¹ = 5 / 11 := by norm_num
    rw [h3] at h2
    linarith
  have hpb : isPeakBin (columnOf spikeSpectro 0) 6 := by
    unfold isPeakBin
    rw [hcol] at hth ⊢
    refine ⟨by norm_num [List.getD], by norm_num [List.getD], ?_⟩
    have : ([(0 : ℝ), 0, 0, 0, 0, 0, 1, 0, 0, 0, 0, 0, 0]).getD 6 0 = 1 := by
      norm_num [List.getD]
    rw [this]
    exact hth
  have hmem0 := mem_find_spectral_peaks_of (s := spikeSpectro) 44100 2048 (f := 0) (b := 6)
    (by norm_num [spikeSpectro]) (by norm_num) (by norm_num [spikeSpectro]) hpb
    (by norm_num [spikeSpectro])
  have hpeq : spikePeak = (⟨(6 : ℕ) * ((44100 : ℕ) : ℝ) /
      (2 * ((spikeSpectro.rows - 1 : ℕ) : ℝ)),
      ((0 : ℕ) : ℝ) * ((2048 : ℕ) : ℝ) / ((44100 : ℕ) : ℝ),
      (columnOf spikeSpectro 0).getD 6 0⟩ : SpectralPeak ℝ) := by
    rw [hcol]
    simp only [spikePeak, spikeSpectro, SpectralPeak.mk.injEq]
    norm_num [List.getD]
  have hmem : spikePeak ∈ find_spectral_peaks spikeSpectro 44100 2048 := by
    rw [hpeq]
    exact hmem0
  exact ⟨hmem, (find_spectral_peaks_sound spikeSpectro 44100 2048).2 spikePeak hmem⟩

/-- Every emitted time offset of `generate_hash_pairs` is the time of one of
the input peaks (its anchor). -/
theorem mem_generate_hash_pairs_snd {peaks : List (SpectralPeak α)} {t : α}
    (ht : t ∈ (generate_hash_pairs peaks).2) : ∃ p ∈ peaks, t = p.time := by
  induction peaks with
  | nil => simp [generate_hash_pairs] at ht
  | cons p rest ih =>
    simp only [generate_hash_pairs, List.mem_append, List.mem_map] at ht
    rcases ht with ⟨q, _, rfl⟩ | ht
    · exact ⟨p, List.mem_cons_self p rest, rfl⟩
    · obtain ⟨p', hp', rfl⟩ := ih ht
      exact ⟨p', List.mem_cons_of_mem p hp', rfl⟩

/-- Every peak returned by the picker carries the time of a frame index below
the spectrogram's frame count. -/
theorem time_of_mem_find_spectral_peaks {s : Spectro} {sr hop : ℕ} {p : SpectralPeak ℝ}
    (hp : p ∈ find_spectral_peaks s sr hop) :
    ∃ f < s.cols, p.time = (f : ℝ) * (hop : ℝ) / (sr : ℝ) := by
  have hp' : p ∈ (rawPeaks s sr hop).mergeSort
      (fun a b => decide (b.magnitude ≤ a.magnitude)) := List.mem_of_mem_take hp
  rw [List.mem_mergeSort] at hp'
  obtain ⟨f, b, hf, _, _, _, rfl⟩ := of_mem_rawPeaks hp'
  exact ⟨f, hf, rfl⟩

/-- C9: for every input signal, every `(hash, anchor_time)` pair emitted by
`Fingerprint::generate` has an anchor time that is non-negative and strictly
below the fingerprint's duration `len / 44100`. -/
theorem generate_anchor_times_within_duration (audio : List ℝ) :
    anchorTimesWithinDuration (Fingerprint.generate audio) := by
  unfold Fingerprint.generate
  cases hcs : compute_spectrogram audio 4096 2048 44100 with
  | error e => exact trivial
  | ok spectro =>
    by_cases hl : 4096 ≤ audio.length
    · unfold compute_spectrogram at hcs
      rw [if_pos hl, if_pos (by norm_num)] at hcs
      injection hcs with hcs
      subst hcs
      simp only [anchorTimesWithinDuration]
      intro t ht
      obtain ⟨p, hp, rfl⟩ := mem_generate_hash_pairs_snd ht
      obtain ⟨f, hf, hpt⟩ := time_of_mem_find_spectral_peaks hp
      rw [hpt]
      constructor
      · positivity
      · have hf' : f ≤ (audio.length - 4096) / 2048 := by
          have hf2 : f < (audio.length - 4096) / 2048 + 1 := hf
          omega
        have hmul : f * 2048 ≤ audio.length - 4096 := by
          rw [Nat.le_div_iff_mul_le (by norm_num : 0 < 2048)] at hf'
          exact hf'
        have hcast : ((f : ℝ) * 2048) ≤ ((audio.length - 4096 : ℕ) : ℝ) := by
          exact_mod_cast hmul
        have hsub : ((audio.length - 4096 : ℕ) : ℝ) = (audio.length : ℝ) - 4096 := by
          rw [Nat.cast_sub hl]
          norm_num
        have hlt : (f : ℝ) * 2048 < (audio.length : ℝ) := by
          rw [hsub] at hcast
          have h4 : (4096 : ℝ) ≤ (audio.length : ℝ) := by exact_mod_cast hl
          linarith
        calc (f : ℝ) * ((2048 : ℕ) : ℝ) / ((44100 : ℕ) : ℝ)
            = (f : ℝ) * 2048 / 44100 := by norm_num
          _ < (audio.length : ℝ) / 44100 := by gcongr
    · exfalso
      unfold compute_spectrogram at hcs
      rw [if_neg hl] at hcs
      exact Except.noConfusion hcs

/-- The source `cosine_similarity` computes exactly the spec's cosine: the
early return for a length mismatch or empty input coincides with the zero-norm
guard (an empty vector has zero norm). -/
theorem cosine_similarity_eq_specCosine (a b : List ℝ) :
    cosine_similarity a b = specCosine a b := by
  unfold cosine_similarity specCosine
  by_cases hlen : a.length = b.length
  · by_cases ha : a = []
    · rw [if_pos (Or.inr ha), if_neg ?_]
      subst ha
      simp
    · rw [if_neg (by tauto)]
      by_cases hna : Real.sqrt ((a.map (fun x => x * x)).sum) = 0
      · rw [if_pos (Or.inl hna), if_neg (by tauto)]
      · by_cases hnb : Real.sqrt ((b.map (fun x => x * x)).sum) = 0
        · rw [if_pos (Or.inr hnb), if_neg (by tauto)]
        · rw [if_neg (by tauto), if_pos ⟨hlen, hna, hnb⟩]
  · rw [if_pos (Or.inl hlen), if_neg (by tauto)]

/-- C7 (amended): when the sum of the four fused feature weights is positive,
`robust_similarity` equals the spec's fused score
`Σ_f w_f conf_f(q) conf_f(c) sim_f / Σ_f w_f` with cosine auxiliary
similarities; when the sum is not positive the source returns 0 instead of the
formula's value. -/
theorem robust_similarity_eq_specFusedScore_of_pos_weight
    (query candidate : OptimizedFingerprint)
    (h : 0 < query.feature_weights.hash_weight + query.feature_weights.mfcc_weight +
      query.feature_weights.chroma_weight + query.feature_weights.rhythm_weight) :
    query.robust_similarity candidate = specFusedScore query candidate := by
  unfold OptimizedFingerprint.robust_similarity specFusedScore
  rw [if_pos h, cosine_similarity_eq_specCosine, cosine_similarity_eq_specCosine,
    cosine_similarity_eq_specCosine]
  ring

/-- The one-hash fingerprint matches itself with similarity 1: one hash match,
ratio 1, zero mean time difference. -/
theorem oneHashFp_self_similarity : oneHashFp.similarity oneHashFp = 1 := by
  unfold Fingerprint.similarity
  norm_num [oneHashFp, List.enum, List.filterMap_cons]

/-- C7 (counterexample): with fused weights `(-1, 0, 0, 0)` (sum `-1 < 0`) and
full confidences, `robust_similarity` returns its guard value 0, while the
claimed formula `Σ_f w_f conf_f conf_f sim_f / Σ_f w_f` evaluates to 1 — so
the fused score does not always equal the formula. -/
theorem robust_similarity_ne_specFusedScore :
    cexOptimized.robust_similarity cexOptimized = 0 ∧
      specFusedScore cexOptimized cexOptimized = 1 ∧ (0 : ℝ) ≠ 1 := by
  refine ⟨?_, ?_, by norm_num⟩
  · unfold OptimizedFingerprint.robust_similarity
    rw [if_neg (by norm_num [cexOptimized])]
  · unfold specFusedScore
    norm_num [cexOptimized, specCosine, oneHashFp_self_similarity]

/-- Witness for `robust_similarity_eq_specFusedScore_of_pos_weight` at the
concrete fingerprint with positive weight sum. -/
theorem robust_similarity_eq_specFusedScore_of_pos_weight_witness :
    (0 : ℝ) < witOptimized.feature_weights.hash_weight +
        witOptimized.feature_weights.mfcc_weight +
        witOptimized.feature_weights.chroma_weight +
        witOptimized.feature_weights.rhythm_weight ∧
      witOptimized.robust_similarity witOptimized =
        specFusedScore witOptimized witOptimized := by
  have hw : (0 : ℝ) < witOptimized.feature_weights.hash_weight +
      witOptimized.feature_weights.mfcc_weight +
      witOptimized.feature_weights.chroma_weight +
      witOptimized.feature_weights.rhythm_weight := by
    norm_num [witOptimized]
  exact ⟨hw, robust_similarity_eq_specFusedScore_of_pos_weight witOptimized witOptimized hw⟩

/-- Little-endian roundtrip: reading `w` bytes after writing a value below
`256 ^ w` returns the value and the remaining bytes. -/
theorem readLE_bytesLE : ∀ (w n : ℕ) (r : List ℕ), n < 256 ^ w →
    readLE w (bytesLE w n ++ r) = some (n, r) := by
  intro w
  induction w with
  | zero =>
    intro n r hn
    have : n = 0 := by simpa using hn
    subst this
    rfl
  | succ w ih =>
    intro n r hn
    have hdiv : n / 256 < 256 ^ w := by
      rw [Nat.div_lt_iff_lt_mul (by norm_num)]
      calc n < 256 ^ (w + 1) := hn
        _ = 256 ^ w * 256 := by rw [Nat.pow_succ]
    simp only [bytesLE, List.cons_append, readLE, List.append_eq]
    rw [ih (n / 256) r hdiv]
    show some (n % 256 + 256 * (n / 256), r) = some (n, r)
    have : n % 256 + 256 * (n / 256) = n := by omega
    rw [this]

/-- Record-list roundtrip: reading `length items` records after writing them
returns the list, given the per-record roundtrip on well-formed records. -/
theorem readN_flatMap {β : Type} (enc : β → List ℕ)
    (read1 : List ℕ → Option (β × List ℕ)) (P : β → Prop)
    (h1 : ∀ x (r : List ℕ), P x → read1 (enc x ++ r) = some (x, r)) :
    ∀ (items : List β) (r : List ℕ), (∀ x ∈ items, P x) →
      readN read1 items.length (items.flatMap enc ++ r) = some (items, r) := by
  intro items
  induction items with
  | nil =>
    intro r _
    rfl
  | cons x xs ih =>
    intro r hall
    rw [List.flatMap_cons, List.append_assoc]
    simp only [List.length_cons, readN,
      h1 x (xs.flatMap enc ++ r) (hall x (List.mem_cons_self x xs)),
      ih r (fun y hy => hall y (List.mem_cons_of_mem x hy))]

/-- Peak-record roundtrip for 32-bit field patterns. -/
theorem readPeak_peakToBytes (p : SpectralPeak ℕ) (r : List ℕ)
    (hf : p.frequency < 2 ^ 32) (ht : p.time < 2 ^ 32) (hm : p.magnitude < 2 ^ 32) :
    readPeak (peakToBytes p ++ r) = some (p, r) := by
  have h32 : (2 : ℕ) ^ 32 = 256 ^ 4 := by norm_num
  rw [h32] at hf ht hm
  unfold readPeak peakToBytes
  rw [List.append_assoc, List.append_assoc, readLE_bytesLE 4 p.frequency _ hf]
  simp only [Option.some_bind]
  rw [readLE_bytesLE 4 p.time _ ht]
  simp only [Option.some_bind]
  rw [readLE_bytesLE 4 p.magnitude r hm]
  rfl

/-- Metadata-record roundtrip. -/
theorem readMetadata_metadataToBytes (m : FingerprintMetadata ℕ) (r : List ℕ)
    (h1 : m.sample_rate < 2 ^ 32) (h2 : m.duration < 2 ^ 32) (h3 : m.num_bins < 2 ^ 64)
    (h4 : m.window_size < 2 ^ 64) (h5 : m.overlap < 2 ^ 32) :
    readMetadata (metadataToBytes m ++ r) = some (m, r) := by
  have h32 : (2 : ℕ) ^ 32 = 256 ^ 4 := by norm_num
  have h64 : (2 : ℕ) ^ 64 = 256 ^ 8 := by norm_num
  rw [h32] at h1 h2 h5
  rw [h64] at h3 h4
  unfold readMetadata metadataToBytes
  rw [List.append_assoc, List.append_assoc, List.append_assoc, List.append_assoc,
    readLE_bytesLE 4 m.sample_rate _ h1]
  simp only [Option.some_bind]
  rw [readLE_bytesLE 4 m.duration _ h2]
  simp only [Option.some_bind]
  rw [readLE_bytesLE 8 m.num_bins _ h3]
  simp only [Option.some_bind]
  rw [readLE_bytesLE 8 m.window_size _ h4]
  simp only [Option.some_bind]
  rw [readLE_bytesLE 4 m.overlap r h5]
  rfl

/-- C10: deserializing the serialized form of any bit-level well-formed
fingerprint returns the fingerprint unchanged —
`from_bytes (to_bytes fp) = some fp`. -/
theorem from_bytes_to_bytes_roundtrip (fp : Fingerprint ℕ) (h : fp.WFbits) :
    Fingerprint.from_bytes fp.to_bytes = some fp := by
  obtain ⟨hlh, hh, hlt, ht, hlp, hp, hm1, hm2, hm3, hm4, hm5⟩ := h
  have h64 : (2 : ℕ) ^ 64 = 256 ^ 8 := by norm_num
  have h32 : (2 : ℕ) ^ 32 = 256 ^ 4 := by norm_num
  unfold Fingerprint.to_bytes Fingerprint.from_bytes
  simp only [List.append_assoc]
  rw [readLE_bytesLE 8 fp.hashes.length _ (by omega)]
  simp only [Option.some_bind]
  rw [readN_flatMap (bytesLE 8) (readLE 8) (fun x => x < 2 ^ 64)
    (fun x r hx => readLE_bytesLE 8 x r (by omega)) fp.hashes _ hh]
  simp only [Option.some_bind]
  rw [readLE_bytesLE 8 fp.time_offsets.length _ (by omega)]
  simp only [Option.some_bind]
  rw [readN_flatMap (bytesLE 4) (readLE 4) (fun x => x < 2 ^ 32)
    (fun x r hx => readLE_bytesLE 4 x r (by omega)) fp.time_offsets _ ht]
  simp only [Option.some_bind]
  rw [readLE_bytesLE 8 fp.peaks.length _ (by omega)]
  simp only [Option.some_bind]
  rw [readN_flatMap peakToBytes readPeak
    (fun q => q.frequency < 2 ^ 32 ∧ q.time < 2 ^ 32 ∧ q.magnitude < 2 ^ 32)
    (fun q r hq => readPeak_peakToBytes q r hq.1 hq.2.1 hq.2.2) fp.peaks _ hp]
  simp only [Option.some_bind]
  rw [← List.append_nil (metadataToBytes fp.metadata),
    readMetadata_metadataToBytes fp.metadata [] hm1 hm2 hm3 hm4 hm5]
  rfl

/-- Witness for `from_bytes_to_bytes_roundtrip` at a small concrete
fingerprint. -/
theorem from_bytes_to_bytes_roundtrip_witness :
    smallFp.WFbits ∧ Fingerprint.from_bytes smallFp.to_bytes = some smallFp := by
  have hwf : smallFp.WFbits := by
    unfold Fingerprint.WFbits smallFp
    norm_num
  exact ⟨hwf, from_bytes_to_bytes_roundtrip smallFp hwf⟩
